import Mathlib

/-!
Verification of the dora-metrics deployment event pipeline.

This file shallowly embeds the Go source of the redhat-appstudio/dora-metrics
repository (ArgoCD event processor, Redis storage client, commit processor,
DevLake formatter and fan-out client) as executable Lean definitions, and
proves or refutes the specification claims about them.

Conventions used throughout:
- Go time.Time is modelled as Nat (nanoseconds since epoch); the zero time is 0.
- Go strings are Lean String; character-level operations work on String.data.
- Go (value, error) returns are modelled as products with Option String errors.
- Redis is modelled as in-memory association lists; network errors are out of
  scope (every claim involving the store assumes the store is reachable,
  matching the spec wording "assuming the key-value store is available").
-/

namespace DoraMetrics

/-! ## String machinery (models of the Go strings package functions used) -/

/-- Model of Go unicode lowercasing as used on repository URLs (ASCII range,
which is the range exercised by URL comparison in the source). -/
def toLowerChar (c : Char) : Char :=
  if 65 ≤ c.toNat ∧ c.toNat ≤ 90 then Char.ofNat (c.toNat + 32) else c

/-- strings.ToLower on the character list of a string. -/
def lowerChars (s : List Char) : List Char := s.map toLowerChar

/-- strings.TrimSuffix: removes the suffix once if present. -/
def trimSuffixChars (s suf : List Char) : List Char :=
  if suf.isSuffixOf s then s.take (s.length - suf.length) else s

/-- strings.Replace(s, old, new, 1) for a nonempty old: replaces the first
occurrence of old by new. -/
def replaceFirstChars (s old new : List Char) : List Char :=
  match s with
  | [] => []
  | c :: rest =>
    if old.isPrefixOf (c :: rest) then new ++ (c :: rest).drop old.length
    else c :: replaceFirstChars rest old new

/-- Whether pat occurs as a contiguous substring of s. -/
def hasSubstrChars (s pat : List Char) : Bool :=
  match s with
  | [] => pat.isEmpty
  | _ :: rest => pat.isPrefixOf s || hasSubstrChars rest pat

namespace CommitHelper

/-- normalizeRepoURL from the commitHelper (processor package): lowercase,
strip one trailing ".git", strip one trailing "/", replace the first
"http://" by "https://"; empty input is returned unchanged. -/
def normalizeRepoURLChars (s : List Char) : List Char :=
  if s = [] then []
  else
    replaceFirstChars
      (trimSuffixChars (trimSuffixChars (lowerChars s) ".git".data) "/".data)
      "http://".data "https://".data

/-- String-level wrapper of the commitHelper normalizeRepoURL. -/
def normalizeRepoURL (s : String) : String :=
  String.mk (normalizeRepoURLChars s.data)

end CommitHelper

namespace EventProcessor

/-- normalizeRepoURL from the EventProcessor / CommitProcessor variant:
only strips one trailing ".git" and then one trailing "/" (no lowercasing,
no scheme rewriting). -/
def normalizeRepoURL (s : String) : String :=
  String.mk (trimSuffixChars (trimSuffixChars s.data ".git".data) "/".data)

end EventProcessor

example : CommitHelper.normalizeRepoURL "HTTP://GitHub.com/Org/Repo.git" = "https://github.com/org/repo" := by decide
example : CommitHelper.normalizeRepoURL "a.git/" = "a.git" := by decide
example : CommitHelper.normalizeRepoURL "a.git" = "a" := by decide
example : EventProcessor.normalizeRepoURL "HTTP://X/Repo.git" = "HTTP://X/Repo" := by decide

/-- strings.TrimSuffix at String level. -/
def trimSuffixStr (s suf : String) : String :=
  String.mk (trimSuffixChars s.data suf.data)

/-! ## Storage client (pkg/storage/redis.go)

The Redis database is modelled as in-memory association lists. A deployment
record value is stored under the key built by buildKey; processed-commit
markers are entries (key, ttlSeconds) whose value is the constant
"processed" in the source. 30 days = 2592000 seconds. -/

namespace Storage

/-- DeploymentRecord (pkg/storage/types.go), restricted to the fields the
claims exercise. nspace stands for the Go field Namespace. -/
structure DeploymentRecord where
  applicationName : String
  nspace : String
  componentName : String
  clusterName : String
  revision : String
  images : List String
  deployedAt : Nat
deriving DecidableEq

/-- buildKey from redis.go: keyPrefix followed by ":" ++ part for each part. -/
def buildKey (pfx : String) (parts : List String) : String :=
  pfx ++ String.join (parts.map (fun p => ":" ++ p))

/-- The record store: key to DeploymentRecord association list (latest write
is consed at the front, shadowing older entries, matching SET overwrite). -/
abbrev DepStore := List (String × DeploymentRecord)

def lookupDep (st : DepStore) (k : String) : Option DeploymentRecord :=
  (st.find? (fun e => e.1 = k)).map (fun e => e.2)

/-- GetDeployment: returns the Go pair (record pointer, error). A missing key
(redis.Nil) is converted into the error "deployment not found". -/
def getDeployment (pfx : String) (st : DepStore) (appName clusterName : String) :
    Option DeploymentRecord × Option String :=
  match lookupDep st (buildKey pfx [appName, clusterName]) with
  | none => (none, some "deployment not found")
  | some r => (some r, none)

/-- StoreDeployment: SET of the record under prefix:applicationName:cluster. -/
def storeDeployment (pfx : String) (st : DepStore) (r : DeploymentRecord) : DepStore :=
  (buildKey pfx [r.applicationName, r.clusterName], r) :: st

/-- IsNewDeployment from redis.go: calls GetDeployment; on error returns
(false, err); on a nil record returns (true, nil); otherwise compares the
stored revision with the given one. -/
def isNewDeployment (pfx : String) (st : DepStore) (appName clusterName revision : String) :
    Bool × Option String :=
  match getDeployment pfx st appName clusterName with
  | (_, some e) => (false, some e)
  | (existing, none) =>
    match existing with
    | none => (true, none)
    | some ex => (ex.revision != revision, none)

/-- The processed-commit marker store: entries are (key, ttlSeconds); the
stored value is always the string "processed" in the source. -/
abbrev MarkerStore := List (String × Nat)

/-- MarkCommitAsProcessed: SET prefix:processed:sha:app:cluster with a
30-day TTL (2592000 seconds). -/
def markCommitAsProcessed (pfx : String) (st : MarkerStore)
    (commitSHA appName clusterName : String) : MarkerStore :=
  (buildKey pfx ["processed", commitSHA, appName, clusterName], 2592000) :: st

/-- IsCommitProcessed: GET of the same key; present means processed. -/
def isCommitProcessed (pfx : String) (st : MarkerStore)
    (commitSHA appName clusterName : String) : Bool :=
  st.any (fun e => e.1 = buildKey pfx ["processed", commitSHA, appName, clusterName])

end Storage

/-! ## Application model and validator (processor/validator.go) -/

/-- One entry of app.Status.History. deployedAt is Nat nanoseconds, 0 = zero
time. -/
structure HistoryEntry where
  revision : String
  deployedAt : Nat
  repoURL : String
deriving DecidableEq

/-- The slice of the ArgoCD Application object read by the pipeline. -/
structure Application where
  name : String
  nspace : String
  healthStatus : String
  syncStatus : String
  syncRevision : String
  history : List HistoryEntry
  images : List String
deriving DecidableEq

namespace Validator

/-- isHealthy: health status must be Healthy or Unknown. -/
def isHealthy (app : Application) : Bool :=
  app.healthStatus == "Healthy" || app.healthStatus == "Unknown"

/-- isSynced: sync status must be Synced or Unknown. -/
def isSynced (app : Application) : Bool :=
  app.syncStatus == "Synced" || app.syncStatus == "Unknown"

/-- hasRevision: the revision is non-empty. -/
def hasRevision (revision : String) : Bool := revision != ""

/-- ShouldProcess from validator.go: the three predicate gates. -/
def shouldProcess (app : Application) (syncRevision : String) : Bool :=
  isHealthy app && isSynced app && hasRevision syncRevision

/-- IsRevisionInHistory: the revision appears in some history entry. -/
def isRevisionInHistory (app : Application) (syncRevision : String) : Bool :=
  app.history.any (fun h => h.revision == syncRevision)

/-- GetDeployedTimestamp: first history entry with this revision and a
non-zero deployedAt; zero otherwise. -/
def getDeployedTimestamp (app : Application) (revision : String) : Nat :=
  match app.history.find? (fun h => h.revision == revision && h.deployedAt != 0) with
  | some h => h.deployedAt
  | none => 0

end Validator

/-! ## Application parser (parser/application.go) -/

/-- ApplicationInfo as built by ParseApplication. -/
structure ApplicationInfo where
  name : String
  nspace : String
  environment : String
  component : String
  cluster : String
  revision : String
  deployedAt : Nat
  health : String
  images : List String
deriving DecidableEq

namespace Parser

/-- parseApplicationName: find the first known cluster that is a "-"-joined
suffix of the name; no match means non-monitorable (empty triple). -/
def parseApplicationName (knownClusters : List String) (name : String) :
    String × String × String :=
  match knownClusters.find? (fun kc => ("-" ++ kc).data.isSuffixOf name.data) with
  | none => ("", "", "")
  | some cluster => ("production", trimSuffixStr name ("-" ++ cluster), cluster)

/-- ParseApplication: the source sets DeployedAt to time.Now(); the wall
clock is the explicit parameter now. -/
def parseApplication (knownClusters : List String) (app : Application) (now : Nat) :
    ApplicationInfo :=
  let parsed := parseApplicationName knownClusters app.name
  { name := app.name
    nspace := app.nspace
    environment := parsed.1
    component := parsed.2.1
    cluster := parsed.2.2
    revision := app.syncRevision
    deployedAt := now
    health := app.healthStatus
    images := app.images }

end Parser

/-! ## Event processor dedup state machine (processor/event.go)

handleModifiedEvent up to the decision of whether processNewDeployment (or
processFailedDeployment on the OutOfSync+Missing branch) is invoked. The
storage round trips are IsCommitProcessed (a GET) followed by
MarkCommitAsProcessed (a SET); the returned Bool is true iff the event
reaches processing. -/

namespace Processor

/-- The failed-deployment carve-out at the top of handleModifiedEvent. -/
def failedBranch (app : Application) : Bool :=
  app.syncStatus == "OutOfSync" && app.healthStatus == "Missing"

/-- The revision of the last history entry, or empty when history is empty. -/
def lastHistoryRevision (app : Application) : String :=
  match app.history.getLast? with
  | some h => h.revision
  | none => ""

/-- handleModifiedEvent reduced to its storage interaction: returns whether
processing proceeds and the marker store afterwards. On the failed branch
the same marker key is checked and set with appInfo.Revision, which equals
the sync revision. -/
def handleModifiedEvent (pfx : String) (st : Storage.MarkerStore)
    (app : Application) (cluster : String) : Bool × Storage.MarkerStore :=
  if failedBranch app then
    if Storage.isCommitProcessed pfx st app.syncRevision app.name cluster then (false, st)
    else (true, Storage.markCommitAsProcessed pfx st app.syncRevision app.name cluster)
  else
    if app.history = [] then (false, st)
    else if lastHistoryRevision app != app.syncRevision then (false, st)
    else if Storage.isCommitProcessed pfx st app.syncRevision app.name cluster then (false, st)
    else (true, Storage.markCommitAsProcessed pfx st app.syncRevision app.name cluster)

/-- Sequential execution of a list of (application, cluster) events through
handleModifiedEvent, threading the marker store; returns how many events
reached processing and the final store. -/
def runSeq (pfx : String) : Storage.MarkerStore → List (Application × String) →
    Nat × Storage.MarkerStore
  | st, [] => (0, st)
  | st, ev :: rest =>
    let r := handleModifiedEvent pfx st ev.1 ev.2
    let tail := runSeq pfx r.2 rest
    ((if r.1 then 1 else 0) + tail.1, tail.2)

/-- Where a replica of the service stands inside the storage protocol of
handleModifiedEvent: before the IsCommitProcessed GET, after it (carrying
the answer), or finished (carrying whether processing was reached). -/
inductive Phase where
  | ready : Phase
  | checked : Bool → Phase
  | finished : Bool → Phase
deriving DecidableEq

/-- One replica processing one Modified event. -/
structure Replica where
  app : Application
  cluster : String
  phase : Phase
deriving DecidableEq

/-- One atomic storage round trip of a replica running handleModifiedEvent:
the GET (IsCommitProcessed) and the SET (MarkCommitAsProcessed) are separate
steps, exactly as they are separate Redis commands in the source. -/
def stepReplica (pfx : String) (st : Storage.MarkerStore) (rep : Replica) :
    Storage.MarkerStore × Replica :=
  match rep.phase with
  | .ready =>
    if failedBranch rep.app then
      (st, { rep with
             phase := .checked (Storage.isCommitProcessed pfx st rep.app.syncRevision rep.app.name rep.cluster) })
    else if rep.app.history = [] then (st, { rep with phase := .finished false })
    else if lastHistoryRevision rep.app != rep.app.syncRevision then
      (st, { rep with phase := .finished false })
    else
      (st, { rep with
             phase := .checked (Storage.isCommitProcessed pfx st rep.app.syncRevision rep.app.name rep.cluster) })
  | .checked true => (st, { rep with phase := .finished false })
  | .checked false =>
    (Storage.markCommitAsProcessed pfx st rep.app.syncRevision rep.app.name rep.cluster,
     { rep with phase := .finished true })
  | .finished _ => (st, rep)

/-- Interleave two replicas under a schedule: true schedules replica A,
false schedules replica B. -/
def runSched (pfx : String) : Storage.MarkerStore → Replica → Replica → List Bool →
    Storage.MarkerStore × Replica × Replica
  | st, a, b, [] => (st, a, b)
  | st, a, b, true :: rest =>
    let r := stepReplica pfx st a
    runSched pfx r.1 r.2 b rest
  | st, a, b, false :: rest =>
    let r := stepReplica pfx st b
    runSched pfx r.1 a r.2 rest

/-- Whether a replica ended having reached processing (the fan-out call). -/
def replicaProceeded (rep : Replica) : Bool :=
  match rep.phase with
  | .finished b => b
  | _ => false

end Processor

/-! ## Dedup lemmas shared by the event-processor claims -/

namespace Processor

lemma isCommitProcessed_mark (pfx : String) (st : Storage.MarkerStore)
    (sha n c : String) :
    Storage.isCommitProcessed pfx (Storage.markCommitAsProcessed pfx st sha n c) sha n c
      = true := by
  simp [Storage.isCommitProcessed, Storage.markCommitAsProcessed]

/-- When the marker for the event is already present, handleModifiedEvent
drops the event and leaves the store untouched. -/
lemma handle_marked {pfx : String} {st : Storage.MarkerStore} {app : Application}
    {cluster : String}
    (h : Storage.isCommitProcessed pfx st app.syncRevision app.name cluster = true) :
    handleModifiedEvent pfx st app cluster = (false, st) := by
  unfold handleModifiedEvent
  by_cases hf : failedBranch app <;> simp [hf, h]

/-- When an event reaches processing, its marker is present afterwards. -/
lemma handle_proceed_marks {pfx : String} {st : Storage.MarkerStore} {app : Application}
    {cluster : String}
    (h : (handleModifiedEvent pfx st app cluster).1 = true) :
    Storage.isCommitProcessed pfx (handleModifiedEvent pfx st app cluster).2
      app.syncRevision app.name cluster = true := by
  unfold handleModifiedEvent at h ⊢
  by_cases hf : failedBranch app
  · by_cases hp : Storage.isCommitProcessed pfx st app.syncRevision app.name cluster
    · simp [hf, hp] at h
    · simp [hf, hp, isCommitProcessed_mark]
  · by_cases hh : app.history = []
    · simp [hf, hh] at h
    · by_cases hl : (lastHistoryRevision app != app.syncRevision) = true
      · simp [hf, hh, hl] at h
      · by_cases hp : Storage.isCommitProcessed pfx st app.syncRevision app.name cluster
        · simp [hf, hh, hl, hp] at h
        · simp [hf, hh, hl, hp, isCommitProcessed_mark]

/-- A run whose events all target an already-marked tuple processes nothing
and leaves the store unchanged. -/
lemma runSeq_marked_zero (pfx n c r : String) :
    ∀ (evs : List (Application × String)) (st : Storage.MarkerStore),
    (∀ ev ∈ evs, ev.1.name = n ∧ ev.2 = c ∧ ev.1.syncRevision = r) →
    Storage.isCommitProcessed pfx st r n c = true →
    (runSeq pfx st evs).1 = 0 ∧ (runSeq pfx st evs).2 = st := by
  intro evs
  induction evs with
  | nil => intro st _ _; exact ⟨rfl, rfl⟩
  | cons ev rest ih =>
    intro st hall hm
    obtain ⟨hn, hc, hr⟩ := hall ev (List.mem_cons_self ev rest)
    have hm2 : Storage.isCommitProcessed pfx st ev.1.syncRevision ev.1.name ev.2 = true := by
      rw [hn, hc, hr]; exact hm
    have hstep := handle_marked hm2
    have htail := ih st (fun e he => hall e (List.mem_cons_of_mem ev he)) hm
    simp only [runSeq, hstep]
    simpa using htail

end Processor

/-! ## Commit model and code-host oracle

CommitInfo mirrors pkg/storage/types.go. The GitHub client is modelled as
an oracle of pure functions: an Option result models the Go (value, error)
pair, a zero date models a missing authoring timestamp. -/

structure CommitInfo where
  sha : String
  message : String
  repoURL : String
  createdAt : Nat
deriving DecidableEq

/-- The zero storage.CommitInfo value returned on failure paths. -/
def emptyCommitInfo : CommitInfo := { sha := "", message := "", repoURL := "", createdAt := 0 }

structure GithubClient where
  findRepositoryForCommit : String → Option String
  getCommitMessage : String → String → String
  getCommitDate : String → String → Nat
  isValidCommit : String → Option Bool
  getCommitHistoryBetween : String → String → String → Option (List CommitInfo)

/-- getRepoURLFromHistory (duplicated across the source types): first
history entry with this revision and a non-empty repo URL. -/
def getRepoURLFromHistory (app : Application) (commitSHA : String) : String :=
  match app.history.find? (fun h => h.revision == commitSHA && h.repoURL != "") with
  | some h => h.repoURL
  | none => ""

/-! ## Image processor (processor/images.go, ImageProcessor) -/

namespace ImageProc

/-- extractTagFromImage: the part after the last colon, empty if none. -/
def extractTagFromImage (image : String) : String :=
  let parts := image.splitOn ":"
  if parts.length < 2 then "" else (parts.getLast?).getD ""

/-- getBaseImage: everything before the last colon. -/
def getBaseImage (image : String) : String :=
  let parts := image.splitOn ":"
  if parts.length ≤ 1 then image else String.intercalate ":" parts.dropLast

/-- ExtractValidImages: keep images whose tag is accepted by
IsValidCommit on the code host (error counts as invalid). -/
def extractValidImages (gh : GithubClient) (images : List String) : List String :=
  images.filter (fun image =>
    let tag := extractTagFromImage image
    tag != "" && (match gh.isValidCommit tag with | some b => b | none => false))

/-- imageExistsInPrevious: some previous image shares the base. -/
def imageExistsInPrevious (image : String) (previousImages : List String) : Bool :=
  previousImages.any (fun p => getBaseImage p == getBaseImage image)

/-- FindChangedImages: current images whose base is absent from the
previous image set. -/
def findChangedImages (currentImages previousImages : List String) : List String :=
  currentImages.filter (fun c => !(imageExistsInPrevious c previousImages))

/-- GetCommitHistoryForImage: resolve the previous tag for the same base,
then the repository (code host, falling back to history), then ask for the
commit range; errors yield none, missing data yields an empty list. -/
def getCommitHistoryForImage (gh : GithubClient) (app : Application)
    (image : String) (previousImages : List String) : Option (List CommitInfo) :=
  let currentTag := extractTagFromImage image
  let baseImage := getBaseImage image
  let previousTag :=
    match previousImages.find? (fun p => getBaseImage p == baseImage) with
    | some p => extractTagFromImage p
    | none => ""
  if previousTag == "" then some []
  else
    match gh.findRepositoryForCommit currentTag with
    | some repoURL => gh.getCommitHistoryBetween previousTag currentTag repoURL
    | none =>
      let repoURL := getRepoURLFromHistory app currentTag
      if repoURL == "" then some []
      else gh.getCommitHistoryBetween previousTag currentTag repoURL

end ImageProc

/-! ## Commit helper (the commitHelper of the processor package) -/

namespace CommitHelper

/-- findRepositoryForCommit: history first (no network), then the code
host, then the hard-coded infra-deployments fallback. -/
def findRepositoryForCommit (gh : GithubClient) (app : Application) (commitSHA : String) :
    String :=
  let fromHistory := getRepoURLFromHistory app commitSHA
  if fromHistory != "" then fromHistory
  else
    match gh.findRepositoryForCommit commitSHA with
    | some url => url
    | none => "https://github.com/redhat-appstudio/infra-deployments.git"

/-- formatCommitMessage: the fallback message built from the first eight
characters of the sha. -/
def formatCommitMessage (commitSHA : String) : String :=
  "Commit " ++ String.mk (commitSHA.data.take 8)

/-- getCommitInfo: message (with fallback) and date; a zero date is an
error (none). -/
def getCommitInfo (gh : GithubClient) (commitSHA repoURL : String) :
    Option (String × Nat) :=
  let message :=
    let m := gh.getCommitMessage commitSHA repoURL
    if m == "" then formatCommitMessage commitSHA else m
  let date := gh.getCommitDate commitSHA repoURL
  if date == 0 then none else some (message, date)

/-- createCommitInfo: assembles the CommitInfo, normalizing the repo URL. -/
def createCommitInfo (commitSHA message repoURL : String) (createdAt : Nat) : CommitInfo :=
  { sha := commitSHA, message := message,
    repoURL := normalizeRepoURL repoURL, createdAt := createdAt }

end CommitHelper

/-! ## Commit processor (processor/images.go, CommitProcessor with the
repository blacklist) -/

namespace CommitProc

/-- createCommitFromSHA: resolve the repository, fetch message and date;
failure yields the zero CommitInfo. -/
def createCommitFromSHA (gh : GithubClient) (app : Application) (commitSHA : String) :
    CommitInfo :=
  let repoURL := CommitHelper.findRepositoryForCommit gh app commitSHA
  match CommitHelper.getCommitInfo gh commitSHA repoURL with
  | none => emptyCommitInfo
  | some md => CommitHelper.createCommitInfo commitSHA md.1 repoURL md.2

/-- The no-previous-deployment loop of getCommitHistoryForChangedImages:
add one commit per valid image tag, skipping empty tags, duplicates (by
sha) and tags whose commit info could not be fetched. -/
def addImageCommits (gh : GithubClient) (app : Application) :
    List CommitInfo → List String → List CommitInfo
  | acc, [] => acc
  | acc, image :: rest =>
    let tag := ImageProc.extractTagFromImage image
    if tag == "" then addImageCommits gh app acc rest
    else if acc.any (fun c => c.sha == tag) then addImageCommits gh app acc rest
    else
      let imageCommit := createCommitFromSHA gh app tag
      if imageCommit.sha == "" then addImageCommits gh app acc rest
      else addImageCommits gh app (acc ++ [imageCommit]) rest

/-- Append range commits not yet seen (dedup by sha only), normalizing
each appended commit URL. -/
def appendUnique : List CommitInfo → List CommitInfo → List CommitInfo
  | acc, [] => acc
  | acc, c :: cs =>
    if acc.any (fun x => x.sha == c.sha) then appendUnique acc cs
    else appendUnique (acc ++ [{ c with repoURL := CommitHelper.normalizeRepoURL c.repoURL }]) cs

/-- The changed-images loop: per changed image fetch the commit range
(errors skip the image) and merge unseen commits. -/
def addChangedImageCommits (gh : GithubClient) (app : Application)
    (previousImages : List String) :
    List CommitInfo → List String → List CommitInfo
  | acc, [] => acc
  | acc, image :: rest =>
    match ImageProc.getCommitHistoryForImage gh app image previousImages with
    | none => addChangedImageCommits gh app previousImages acc rest
    | some commits => addChangedImageCommits gh app previousImages (appendUnique acc commits) rest

/-- getCommitHistoryForChangedImages: always seed with the sync revision
commit (failure there is an error); then, with a previous deployment
record, walk the changed images, otherwise add the current image commits. -/
def getCommitHistoryForChangedImages (pfx : String) (gh : GithubClient)
    (deps : Storage.DepStore) (app : Application) (appInfo : ApplicationInfo)
    (validImages : List String) : Option (List CommitInfo) :=
  if appInfo.revision == "" then some []
  else
    let revisionCommit := createCommitFromSHA gh app appInfo.revision
    if revisionCommit.sha == "" then none
    else
      match Storage.getDeployment pfx deps appInfo.component appInfo.cluster with
      | (some prev, none) =>
        let changed := ImageProc.findChangedImages validImages prev.images
        if changed = [] then some [revisionCommit]
        else some (addChangedImageCommits gh app prev.images [revisionCommit] changed)
      | _ =>
        if validImages = [] then some [revisionCommit]
        else some (addImageCommits gh app [revisionCommit] validImages)

/-- The loop of createCommitsFromImages: image tags equal to the deployed
revision are skipped as well. -/
def addCommitsFromImages (gh : GithubClient) (app : Application) (deployedRevision : String) :
    List CommitInfo → List String → List CommitInfo
  | acc, [] => acc
  | acc, image :: rest =>
    let tag := ImageProc.extractTagFromImage image
    if tag == "" || tag == deployedRevision then
      addCommitsFromImages gh app deployedRevision acc rest
    else if acc.any (fun c => c.sha == tag) then
      addCommitsFromImages gh app deployedRevision acc rest
    else
      let imageCommit := createCommitFromSHA gh app tag
      if imageCommit.sha == "" then addCommitsFromImages gh app deployedRevision acc rest
      else addCommitsFromImages gh app deployedRevision (acc ++ [imageCommit]) rest

/-- createCommitsFromImages: the revision commit (when fetchable) plus one
commit per distinct valid image tag. -/
def createCommitsFromImages (gh : GithubClient) (app : Application)
    (appInfo : ApplicationInfo) (validImages : List String) : List CommitInfo :=
  if appInfo.revision == "" then []
  else
    let revisionCommit := createCommitFromSHA gh app appInfo.revision
    let commits := if revisionCommit.sha == "" then [] else [revisionCommit]
    addCommitsFromImages gh app appInfo.revision commits validImages

/-- filterBlacklistedRepos: drop commits whose normalized repository URL
equals the normalized form of some blacklist entry. -/
def filterBlacklistedRepos (blacklist : List String) (commits : List CommitInfo) :
    List CommitInfo :=
  if blacklist = [] then commits
  else
    commits.filter (fun c =>
      !(blacklist.any (fun b =>
        CommitHelper.normalizeRepoURL b == CommitHelper.normalizeRepoURL c.repoURL)))

/-- GetCommitHistoryForDeployment: empty revision short-circuits; changed
image history (errors collapse to empty), falling back to
createCommitsFromImages, then the blacklist filter. -/
def getCommitHistoryForDeployment (pfx : String) (gh : GithubClient)
    (deps : Storage.DepStore) (blacklist : List String)
    (app : Application) (appInfo : ApplicationInfo) : List CommitInfo :=
  if appInfo.revision == "" then []
  else
    let validImages := ImageProc.extractValidImages gh appInfo.images
    let fromChanges :=
      match getCommitHistoryForChangedImages pfx gh deps app appInfo validImages with
      | none => []
      | some l => l
    let commitHistory :=
      if fromChanges = [] then createCommitsFromImages gh app appInfo validImages
      else fromChanges
    filterBlacklistedRepos blacklist commitHistory

end CommitProc

/-! ## Formatter (parser/formatter.go)

Dates stay Nat instants here; the source renders them through
FormatDevLakeDate (zero time formats to "") and parses the commit started
dates back for the timeline, which is the identity on represented
instants. Payload fields are restricted to those the claims exercise. -/

structure DevLakeDeploymentCommit where
  repoURL : String
  refName : String
  startedDate : Nat
  finishedDate : Nat
  commitSHA : String
  commitMsg : String
  result : String
deriving DecidableEq

structure DevLakeCICDDeployment where
  id : String
  createdDate : Nat
  startedDate : Nat
  finishedDate : Nat
  environment : String
  result : String
  deploymentCommits : List DevLakeDeploymentCommit
deriving DecidableEq

/-- The zero deployment returned with hasCommits = false. -/
def emptyDeployment : DevLakeCICDDeployment :=
  { id := "", createdDate := 0, startedDate := 0, finishedDate := 0,
    environment := "", result := "", deploymentCommits := [] }

namespace Formatter

/-- MarkDevLakeCommitAsProcessed: per-component dedup key, 30-day TTL. -/
def markDevLakeCommitAsProcessed (pfx : String) (st : Storage.MarkerStore)
    (commitSHA component : String) : Storage.MarkerStore :=
  (Storage.buildKey pfx ["devlake", commitSHA, component], 2592000) :: st

/-- IsDevLakeCommitProcessed: GET of the same key. -/
def isDevLakeCommitProcessed (pfx : String) (st : Storage.MarkerStore)
    (commitSHA component : String) : Bool :=
  st.any (fun e => e.1 = Storage.buildKey pfx ["devlake", commitSHA, component])

/-- createDevLakeCommits: skip commits already sent for this component,
skip commits whose createdAt is zero (error log in the source), otherwise
emit with the commit URL (falling back to the deployment repo URL when
empty) and mark the commit as sent. Returns the commits and the updated
marker store. -/
def createDevLakeCommits (pfx : String) (deployedAt : Nat) (repoURL component : String) :
    Storage.MarkerStore → List CommitInfo →
    List DevLakeDeploymentCommit × Storage.MarkerStore
  | st, [] => ([], st)
  | st, commit :: rest =>
    if isDevLakeCommitProcessed pfx st commit.sha component then
      createDevLakeCommits pfx deployedAt repoURL component st rest
    else
      let commitRepoURL := if commit.repoURL == "" then repoURL else commit.repoURL
      if commit.createdAt == 0 then
        createDevLakeCommits pfx deployedAt repoURL component st rest
      else
        let entry : DevLakeDeploymentCommit :=
          { repoURL := commitRepoURL, refName := commit.sha,
            startedDate := commit.createdAt, finishedDate := deployedAt,
            commitSHA := commit.sha, commitMsg := commit.message,
            result := "SUCCESS" }
        let tail := createDevLakeCommits pfx deployedAt repoURL component
          (markDevLakeCommitAsProcessed pfx st commit.sha component) rest
        (entry :: tail.1, tail.2)

/-- calculateTimeline: earliest non-zero commit started date, else
deployedAt; finished is always deployedAt. -/
def calculateTimeline (commits : List DevLakeDeploymentCommit) (deployedAt : Nat) :
    Nat × Nat :=
  let nonzero := commits.filterMap
    (fun c => if c.startedDate != 0 then some c.startedDate else none)
  match nonzero with
  | [] => (deployedAt, deployedAt)
  | x :: xs => (xs.foldl Nat.min x, deployedAt)

/-- determineResult: FAILED only on explicit Unhealthy status. -/
def determineResult (app : Application) : String :=
  if app.healthStatus == "Unhealthy" then "FAILED" else "SUCCESS"

/-- FormatDeployment: build the commits; with none, return the zero
deployment and false, otherwise assemble the payload. -/
def formatDeployment (pfx : String) (st : Storage.MarkerStore) (app : Application)
    (appInfo : ApplicationInfo) (deployedAt : Nat) (commits : List CommitInfo) :
    (DevLakeCICDDeployment × Bool) × Storage.MarkerStore :=
  let repoURL := getRepoURLFromHistory app appInfo.revision
  let built := createDevLakeCommits pfx deployedAt repoURL appInfo.component st commits
  if built.1 = [] then ((emptyDeployment, false), built.2)
  else
    let tl := calculateTimeline built.1 deployedAt
    (({ id := appInfo.revision, createdDate := deployedAt,
        startedDate := tl.1, finishedDate := tl.2,
        environment := "PRODUCTION", result := determineResult app,
        deploymentCommits := built.1 }, true), built.2)

end Formatter

/-! ## processNewDeployment (processor/event.go) -/

namespace Processor

/-- processNewDeployment: build the commit history (with blacklist
filtering); when it is empty, return without emitting and without storing;
otherwise format, emit (the payload is the some-result) and store the
deployment record with the valid images and appInfo.deployedAt. A fan-out
failure does not prevent storing, so emission and storing coincide here. -/
def processNewDeployment (pfx : String) (gh : GithubClient)
    (markers : Storage.MarkerStore) (deps : Storage.DepStore)
    (blacklist : List String) (app : Application) (appInfo : ApplicationInfo) :
    Option DevLakeCICDDeployment × Storage.MarkerStore × Storage.DepStore :=
  let commitHistory := CommitProc.getCommitHistoryForDeployment pfx gh deps blacklist app appInfo
  if commitHistory = [] then (none, markers, deps)
  else
    let fmt := Formatter.formatDeployment pfx markers app appInfo appInfo.deployedAt commitHistory
    if fmt.1.2 = false then (none, fmt.2, deps)
    else
      let record : Storage.DeploymentRecord :=
        { applicationName := app.name
          nspace := appInfo.nspace
          componentName := appInfo.component
          clusterName := appInfo.cluster
          revision := appInfo.revision
          images := ImageProc.extractValidImages gh appInfo.images
          deployedAt := appInfo.deployedAt }
      (some fmt.1.1, fmt.2, Storage.storeDeployment pfx deps record)

end Processor

/-! ## Formatter lemmas shared by the payload claims -/

namespace Formatter

/-- Every commit the formatter emits has a non-zero started date (the
commit authoring instant): zero-dated commits are skipped. -/
lemma createDevLakeCommits_nonzero (pfx : String) (deployedAt : Nat)
    (repoURL component : String) :
    ∀ (commits : List CommitInfo) (st : Storage.MarkerStore)
      (c : DevLakeDeploymentCommit),
      c ∈ (createDevLakeCommits pfx deployedAt repoURL component st commits).1 →
      c.startedDate ≠ 0 := by
  intro commits
  induction commits with
  | nil => intro st c hc; simp [createDevLakeCommits] at hc
  | cons commit rest ih =>
    intro st c hc
    unfold createDevLakeCommits at hc
    by_cases hp : isDevLakeCommitProcessed pfx st commit.sha component
    · simp only [hp, if_true] at hc
      exact ih st c hc
    · simp only [hp] at hc
      by_cases hz : (commit.createdAt == 0) = true
      · simp only [hz, if_true, if_false] at hc
        exact ih st c hc
      · simp only [hz, if_false, Bool.false_eq_true, if_true] at hc
        simp only [List.mem_cons] at hc
        rcases hc with rfl | hc
        · simpa using hz
        · exact ih _ c hc

/-- In the emitting branch, the payload fields come from the inputs:
commits are exactly the built list and createdDate is the deployedAt
argument. -/
lemma formatDeployment_emitted (pfx : String) (st : Storage.MarkerStore)
    (app : Application) (appInfo : ApplicationInfo) (deployedAt : Nat)
    (commits : List CommitInfo)
    (h : (formatDeployment pfx st app appInfo deployedAt commits).1.2 = true) :
    (formatDeployment pfx st app appInfo deployedAt commits).1.1.createdDate = deployedAt ∧
    (formatDeployment pfx st app appInfo deployedAt commits).1.1.deploymentCommits =
      (createDevLakeCommits pfx deployedAt (getRepoURLFromHistory app appInfo.revision)
        appInfo.component st commits).1 := by
  unfold formatDeployment at h ⊢
  by_cases hb : (createDevLakeCommits pfx deployedAt
      (getRepoURLFromHistory app appInfo.revision) appInfo.component st commits).1 = []
  · simp [hb] at h
  · simp [hb]

end Formatter

/-! ## Concrete fixtures used by witnesses and counterexamples -/

/-- A healthy, synced application whose sync revision is its last (and only)
history entry. -/
def appHealthy : Application :=
  { name := "build-service-kflux-prd-rh02"
    nspace := "konflux-public-production"
    healthStatus := "Healthy"
    syncStatus := "Synced"
    syncRevision := "abc123"
    history := [⟨"abc123", 100, "https://github.com/org/build-service"⟩]
    images := [] }

/-- Same application with Degraded health (fails the isHealthy gate). -/
def appDegraded : Application := { appHealthy with healthStatus := "Degraded" }

/-- Same application redeployed later: same revision, deployedAt 200. -/
def appRedeploy : Application :=
  { appHealthy with history := [⟨"abc123", 200, "https://github.com/org/build-service"⟩] }

/-- The deployment record stored after the first processing of appHealthy. -/
def c3Record : Storage.DeploymentRecord :=
  { applicationName := "build-service-kflux-prd-rh02"
    nspace := "konflux-public-production"
    componentName := "build-service"
    clusterName := "kflux-prd-rh02"
    revision := "abc123"
    images := []
    deployedAt := 100 }

/-- Record store holding c3Record under its key. -/
def c3RecStore : Storage.DepStore :=
  [(Storage.buildKey "dora" ["build-service-kflux-prd-rh02", "kflux-prd-rh02"], c3Record)]

/-- Marker store after the first processing of revision abc123. -/
def c3Markers : Storage.MarkerStore :=
  Storage.markCommitAsProcessed "dora" [] "abc123" "build-service-kflux-prd-rh02" "kflux-prd-rh02"

/-- The configured known clusters for the fixtures. -/
def ksFixture : List String := ["kflux-prd-rh02"]

/-- Code-host oracle: every commit resolves to one repository, with
message "some message" and authoring instant 5. -/
def ghFixture : GithubClient :=
  { findRepositoryForCommit := fun _ => some "https://github.com/blacklisted/repo.git"
    getCommitMessage := fun _ _ => "some message"
    getCommitDate := fun _ _ => 5
    isValidCommit := fun _ => some true
    getCommitHistoryBetween := fun _ _ _ => some [] }

/-- Parsed info of appHealthy at wall clock 999. -/
def infoHealthy : ApplicationInfo := Parser.parseApplication ksFixture appHealthy 999

/-- Parsed info of appRedeploy at wall clock 999. -/
def infoRedeploy : ApplicationInfo := Parser.parseApplication ksFixture appRedeploy 999

/-- appHealthy with a history repository URL that has no URL scheme. -/
def appNoScheme : Application :=
  { appHealthy with history := [⟨"abc123", 100, "github.com/Org/Repo"⟩] }

/-- Parsed info of appNoScheme at wall clock 999. -/
def infoNoScheme : ApplicationInfo := Parser.parseApplication ksFixture appNoScheme 999

/-- The normal form asserted by the spec for emitted repository URLs:
lowercase, no trailing .git, no trailing slash, https scheme. -/
def isNormalizedRepoURL (s : String) : Bool :=
  (lowerChars s.data == s.data) && !((".git".data).isSuffixOf s.data) &&
  !(("/".data).isSuffixOf s.data) && (("https://".data).isPrefixOf s.data)

/-! ## Claim C1 -/

/-- C1, counterexample. The claim asserts a processing lock keyed
(applicationName, cluster, syncRevision) with a short seconds TTL and
at-most-once fan-out across the replica set. In the source there is no
lock: handleModifiedEvent issues IsCommitProcessed (GET) and then
MarkCommitAsProcessed (SET, 30-day TTL) as two separate store commands.
With the store fully available, two replicas interleaving those commands
on the same (application, cluster, revision, deployedAt) tuple both reach
the fan-out, and every key written carries TTL 2592000 seconds. -/
theorem c1_counterexample :
    Processor.replicaProceeded
        (Processor.runSched "dora" []
          ⟨appHealthy, "kflux-prd-rh02", Processor.Phase.ready⟩
          ⟨appHealthy, "kflux-prd-rh02", Processor.Phase.ready⟩
          [true, false, true, false]).2.1 = true ∧
    Processor.replicaProceeded
        (Processor.runSched "dora" []
          ⟨appHealthy, "kflux-prd-rh02", Processor.Phase.ready⟩
          ⟨appHealthy, "kflux-prd-rh02", Processor.Phase.ready⟩
          [true, false, true, false]).2.2 = true ∧
    ((Processor.runSched "dora" []
          ⟨appHealthy, "kflux-prd-rh02", Processor.Phase.ready⟩
          ⟨appHealthy, "kflux-prd-rh02", Processor.Phase.ready⟩
          [true, false, true, false]).1.all (fun e => e.2 == 2592000)) = true := by
  decide

/-- C1, amended: deduplication uses the processed-commit marker
(prefix:processed:commitSHA:applicationName:cluster, 30-day TTL), not a
lock; when the handler executions for a tuple are serialized, at most one
event per (application, cluster, revision) reaches the fan-out. -/
theorem c1_sequential_at_most_once (pfx n c r : String) (st : Storage.MarkerStore)
    (evs : List (Application × String))
    (h : ∀ ev ∈ evs, ev.1.name = n ∧ ev.2 = c ∧ ev.1.syncRevision = r) :
    (Processor.runSeq pfx st evs).1 ≤ 1 := by
  induction evs generalizing st with
  | nil => simp [Processor.runSeq]
  | cons ev rest ih =>
    obtain ⟨hn, hc, hr⟩ := h ev (List.mem_cons_self ev rest)
    have hrest : ∀ e ∈ rest, e.1.name = n ∧ e.2 = c ∧ e.1.syncRevision = r :=
      fun e he => h e (List.mem_cons_of_mem ev he)
    rcases hres : Processor.handleModifiedEvent pfx st ev.1 ev.2 with ⟨p, st2⟩
    cases p with
    | true =>
      have hp1 : (Processor.handleModifiedEvent pfx st ev.1 ev.2).1 = true := by
        rw [hres]
      have hmark := Processor.handle_proceed_marks hp1
      rw [hres] at hmark
      rw [hn, hc, hr] at hmark
      have hz := Processor.runSeq_marked_zero pfx n c r rest st2 hrest hmark
      simp [Processor.runSeq, hres, hz.1]
    | false =>
      have htail := ih st2 hrest
      simp [Processor.runSeq, hres]
      omega

/-- Witness for c1_sequential_at_most_once at a concrete two-event run. -/
theorem c1_sequential_at_most_once_witness :
    (Processor.runSeq "dora" []
        [(appHealthy, "kflux-prd-rh02"), (appHealthy, "kflux-prd-rh02")]).1 ≤ 1 :=
  c1_sequential_at_most_once "dora" "build-service-kflux-prd-rh02" "kflux-prd-rh02"
    "abc123" [] _
    (by
      intro ev hev
      simp only [List.mem_cons, List.not_mem_nil, or_false] at hev
      rcases hev with rfl | rfl <;> exact ⟨rfl, rfl, rfl⟩)

/-! ## Claim C2 -/

/-- C2, counterexample. The claim says processing proceeds iff the four
validator gates pass (health, sync, non-empty revision, revision anywhere
in history). The source never calls ShouldProcess: a Degraded application
whose sync revision equals its last history entry proceeds although the
health gate fails. -/
theorem c2_counterexample :
    ¬ (((Processor.handleModifiedEvent "dora" [] appDegraded "kflux-prd-rh02").1 = true) ↔
        (Validator.shouldProcess appDegraded appDegraded.syncRevision = true ∧
         Validator.isRevisionInHistory appDegraded appDegraded.syncRevision = true)) := by
  decide

/-- C2, amended: outside the OutOfSync+Missing branch, processing proceeds
iff the history is non-empty, the sync revision equals the LAST history
entry, and the commit is not already marked processed; the validator gates
are defined in the source but not invoked by the event processor. -/
theorem c2_gate_characterization (pfx : String) (st : Storage.MarkerStore)
    (app : Application) (cluster : String)
    (hf : Processor.failedBranch app = false) :
    (Processor.handleModifiedEvent pfx st app cluster).1 = true ↔
      (app.history ≠ [] ∧ Processor.lastHistoryRevision app = app.syncRevision ∧
       Storage.isCommitProcessed pfx st app.syncRevision app.name cluster = false) := by
  unfold Processor.handleModifiedEvent
  by_cases hh : app.history = []
  · simp [hf, hh]
  · by_cases hl : Processor.lastHistoryRevision app = app.syncRevision
    · by_cases hp : Storage.isCommitProcessed pfx st app.syncRevision app.name cluster
      · simp [hf, hh, hl, hp]
      · simp [hf, hh, hl, hp]
    · simp [hf, hh, hl]

/-- Witness for c2_gate_characterization: the healthy fixture proceeds. -/
theorem c2_gate_characterization_witness :
    (Processor.handleModifiedEvent "dora" [] appHealthy "kflux-prd-rh02").1 = true :=
  (c2_gate_characterization "dora" [] appHealthy "kflux-prd-rh02" (by decide)).mpr
    ⟨by decide, by decide, by decide⟩

/-! ## Claim C3 -/

/-- C3, counterexample. A second Modified event with the same sync revision
as the stored record but a strictly later deployed timestamp (history
deployedAt 200 against stored 100) is dropped by the processed-commit
marker: processing is not reached, so no further emission happens and the
stored record (and its deployedAt) is not touched. -/
theorem c3_counterexample :
    Validator.getDeployedTimestamp appRedeploy "abc123" = 200 ∧
    (Storage.getDeployment "dora" c3RecStore "build-service-kflux-prd-rh02"
        "kflux-prd-rh02").1 = some c3Record ∧
    c3Record.revision = appRedeploy.syncRevision ∧
    c3Record.deployedAt < Validator.getDeployedTimestamp appRedeploy "abc123" ∧
    Processor.handleModifiedEvent "dora" c3Markers appRedeploy "kflux-prd-rh02"
      = (false, c3Markers) := by
  decide

/-- C3, amended: an event whose sync revision is already marked processed
for (applicationName, cluster) is dropped regardless of its deployed
timestamp; the store is left unchanged, so the record deployedAt is never
updated by a same-revision redeploy. -/
theorem c3_redeploy_dropped (pfx : String) (st : Storage.MarkerStore)
    (app : Application) (cluster : String)
    (h : Storage.isCommitProcessed pfx st app.syncRevision app.name cluster = true) :
    Processor.handleModifiedEvent pfx st app cluster = (false, st) :=
  Processor.handle_marked h

/-- Witness for c3_redeploy_dropped at the concrete redeploy fixture. -/
theorem c3_redeploy_dropped_witness :
    Processor.handleModifiedEvent "dora" c3Markers appRedeploy "kflux-prd-rh02"
      = (false, c3Markers) :=
  c3_redeploy_dropped "dora" c3Markers appRedeploy "kflux-prd-rh02" (by decide)

/-! ## Claim C4 -/

/-- C4, counterexample. The history of appRedeploy carries a non-zero
deployed timestamp 200 for the sync revision, yet the parser sets
DeployedAt to time.Now() (999 here) unconditionally, and that value flows
into both the emitted payload createdDate and the stored record. -/
theorem c4_counterexample :
    Validator.getDeployedTimestamp appRedeploy "abc123" = 200 ∧
    (200 : Nat) ≠ 0 ∧
    (Parser.parseApplication ksFixture appRedeploy 999).deployedAt = 999 ∧
    ((Processor.processNewDeployment "dora" ghFixture [] [] [] appRedeploy
        infoRedeploy).1.map (fun p => p.createdDate)) = some 999 ∧
    ((Processor.processNewDeployment "dora" ghFixture [] [] [] appRedeploy
        infoRedeploy).2.2.map (fun e => e.2.deployedAt)) = [999] := by
  decide

/-- C4, amended: the deployedAt used for the payload and the record is
always the wall clock at parse time (time.Now()), never the history
timestamp; GetDeployedTimestamp exists in the validator but is not called.
The payload createdDate always equals appInfo.deployedAt. -/
theorem c4_deployedAt_semantics (ks : List String) (app : Application) (now : Nat)
    (pfx : String) (gh : GithubClient) (markers : Storage.MarkerStore)
    (deps : Storage.DepStore) (blacklist : List String)
    (appInfo : ApplicationInfo) (p : DevLakeCICDDeployment)
    (h : (Processor.processNewDeployment pfx gh markers deps blacklist app appInfo).1
      = some p) :
    (Parser.parseApplication ks app now).deployedAt = now ∧
    p.createdDate = appInfo.deployedAt := by
  refine ⟨rfl, ?_⟩
  simp only [Processor.processNewDeployment] at h
  by_cases hc : CommitProc.getCommitHistoryForDeployment pfx gh deps blacklist app appInfo = []
  · simp [hc] at h
  · simp only [hc, if_false] at h
    by_cases hf : (Formatter.formatDeployment pfx markers app appInfo appInfo.deployedAt
        (CommitProc.getCommitHistoryForDeployment pfx gh deps blacklist app appInfo)).1.2 = false
    · simp [hf] at h
    · simp only [hf, if_false] at h
      have ht : (Formatter.formatDeployment pfx markers app appInfo appInfo.deployedAt
          (CommitProc.getCommitHistoryForDeployment pfx gh deps blacklist app appInfo)).1.2
          = true := by
        revert hf; cases (Formatter.formatDeployment pfx markers app appInfo
          appInfo.deployedAt (CommitProc.getCommitHistoryForDeployment pfx gh deps
            blacklist app appInfo)).1.2 <;> simp
      have := (Formatter.formatDeployment_emitted pfx markers app appInfo
        appInfo.deployedAt _ ht).1
      have h2 : (Formatter.formatDeployment pfx markers app appInfo appInfo.deployedAt
          (CommitProc.getCommitHistoryForDeployment pfx gh deps blacklist app appInfo)).1.1
          = p := by simpa using h
      rw [← h2]
      exact this

/-- Witness for c4_deployedAt_semantics at the healthy fixture. -/
theorem c4_deployedAt_semantics_witness :
    (Parser.parseApplication ksFixture appHealthy 999).deployedAt = 999 ∧
    ((Processor.processNewDeployment "dora" ghFixture [] [] [] appHealthy
        infoHealthy).1.get (by decide)).createdDate = infoHealthy.deployedAt := by
  have h := c4_deployedAt_semantics ksFixture appHealthy 999 "dora" ghFixture [] [] []
    infoHealthy
    ((Processor.processNewDeployment "dora" ghFixture [] [] [] appHealthy infoHealthy).1.get
      (by decide)) (by decide)
  exact ⟨h.1, h.2⟩

/-! ## Claim C5 -/

/-- C5, counterexample. When the only commit comes from a blacklisted
repository, the filtered history is empty and processNewDeployment returns
without emitting AND without storing: the record store is untouched,
contradicting the claim that the DeploymentRecord is still written.
Without the blacklist the same deployment has a commit, showing the
emptiness is produced by the filter. -/
theorem c5_counterexample :
    CommitProc.getCommitHistoryForDeployment "dora" ghFixture []
        ["https://github.com/org/build-service"] appHealthy infoHealthy = [] ∧
    Processor.processNewDeployment "dora" ghFixture [] []
        ["https://github.com/org/build-service"] appHealthy infoHealthy = (none, [], []) ∧
    CommitProc.getCommitHistoryForDeployment "dora" ghFixture [] []
        appHealthy infoHealthy ≠ [] := by
  decide

/-- C5, amended: when the commit history is empty after blacklist
filtering, processNewDeployment makes no POST and also does NOT write the
DeploymentRecord: it returns before storing, leaving both stores
unchanged. -/
theorem c5_empty_history_no_store (pfx : String) (gh : GithubClient)
    (markers : Storage.MarkerStore) (deps : Storage.DepStore)
    (blacklist : List String) (app : Application) (appInfo : ApplicationInfo)
    (h : CommitProc.getCommitHistoryForDeployment pfx gh deps blacklist app appInfo = []) :
    Processor.processNewDeployment pfx gh markers deps blacklist app appInfo
      = (none, markers, deps) := by
  unfold Processor.processNewDeployment
  simp [h]

/-- Witness for c5_empty_history_no_store at the blacklisted fixture. -/
theorem c5_empty_history_no_store_witness :
    Processor.processNewDeployment "dora" ghFixture [] []
        ["https://github.com/org/build-service"] appHealthy infoHealthy = (none, [], []) :=
  c5_empty_history_no_store "dora" ghFixture [] []
    ["https://github.com/org/build-service"] appHealthy infoHealthy (by decide)

/-! ## Claim C6 -/

/-- C6, counterexample. A repository URL resolved from history without a
scheme ("github.com/Org/Repo") is emitted as "github.com/org/repo": the
commit has a non-zero createdAt (5) but its repoURL lacks the https://
scheme, so it is not in the claimed normal form. -/
theorem c6_counterexample :
    ((Processor.processNewDeployment "dora" ghFixture [] [] [] appNoScheme
        infoNoScheme).1.map (fun p => p.deploymentCommits.map
          (fun c => (c.repoURL, isNormalizedRepoURL c.repoURL, c.startedDate))))
      = some [("github.com/org/repo", false, 5)] := by
  decide

/-- C6, amended: every commit of every emitted payload has a non-zero
createdAt (zero-dated commits are skipped by the formatter); the repoURL
is whatever URL the commit processor resolved, passed through its
normalizeRepoURL, with no guarantee of lowercase form or an https scheme. -/
theorem c6_payload_commits_nonzero_createdAt (pfx : String) (gh : GithubClient)
    (markers : Storage.MarkerStore) (deps : Storage.DepStore)
    (blacklist : List String) (app : Application) (appInfo : ApplicationInfo)
    (p : DevLakeCICDDeployment)
    (h : (Processor.processNewDeployment pfx gh markers deps blacklist app appInfo).1
      = some p) :
    ∀ c ∈ p.deploymentCommits, c.startedDate ≠ 0 := by
  simp only [Processor.processNewDeployment] at h
  by_cases hc : CommitProc.getCommitHistoryForDeployment pfx gh deps blacklist app appInfo = []
  · simp [hc] at h
  · simp only [hc, if_false] at h
    by_cases hf : (Formatter.formatDeployment pfx markers app appInfo appInfo.deployedAt
        (CommitProc.getCommitHistoryForDeployment pfx gh deps blacklist app appInfo)).1.2 = false
    · simp [hf] at h
    · simp only [hf, if_false] at h
      have ht : (Formatter.formatDeployment pfx markers app appInfo appInfo.deployedAt
          (CommitProc.getCommitHistoryForDeployment pfx gh deps blacklist app appInfo)).1.2
          = true := by
        revert hf; cases (Formatter.formatDeployment pfx markers app appInfo
          appInfo.deployedAt (CommitProc.getCommitHistoryForDeployment pfx gh deps
            blacklist app appInfo)).1.2 <;> simp
      have hcommits := (Formatter.formatDeployment_emitted pfx markers app appInfo
        appInfo.deployedAt _ ht).2
      have h2 : (Formatter.formatDeployment pfx markers app appInfo appInfo.deployedAt
          (CommitProc.getCommitHistoryForDeployment pfx gh deps blacklist app appInfo)).1.1
          = p := by simpa using h
      intro c hcmem
      rw [← h2] at hcmem
      rw [hcommits] at hcmem
      exact Formatter.createDevLakeCommits_nonzero pfx appInfo.deployedAt
        (getRepoURLFromHistory app appInfo.revision) appInfo.component _ markers c hcmem

/-- Witness for c6_payload_commits_nonzero_createdAt at the healthy
fixture payload and its single commit. -/
theorem c6_payload_commits_nonzero_createdAt_witness :
    (((Processor.processNewDeployment "dora" ghFixture [] [] [] appHealthy
        infoHealthy).1.get (by decide)).deploymentCommits.head (by decide)).startedDate ≠ 0 := by
  have h := c6_payload_commits_nonzero_createdAt "dora" ghFixture [] [] [] appHealthy
    infoHealthy
    ((Processor.processNewDeployment "dora" ghFixture [] [] [] appHealthy infoHealthy).1.get
      (by decide)) (by decide)
  exact h _ (List.head_mem _)

/-! ## DevLake integration (the integrations package) -/

/-- strings.ToLower at String level. -/
def lowerStr (s : String) : String := String.mk (lowerChars s.data)

namespace DevLake

/-- TeamConfig (internal/config/types.go), the fields the fan-out uses. -/
structure TeamConfig where
  name : String
  projectID : String
  argocdComponents : List String
deriving DecidableEq

/-- GetTeamsForComponent: empty component or no teams yields nil;
otherwise every team whose ArgocdComponents contains the component. -/
def getTeamsForComponent (teams : List TeamConfig) (component : String) :
    List TeamConfig :=
  if component == "" || teams.isEmpty then []
  else teams.filter (fun t => t.argocdComponents.any (fun tc => tc == component))

/-- SendDeploymentEvent reduced to its project fan-out. The component has
already been extracted from the payload DisplayTitle by the source before
the sends; sendOk models the per-project POST outcome. Returns the posted
project IDs (global first, then matching teams in order) and whether the
call returns a nil error: an aggregated error is returned only when every
send failed. -/
def sendDeploymentEvent (globalProjectID : String) (teams : List TeamConfig)
    (component : String) (sendOk : String → Bool) : List String × Bool :=
  let targets := globalProjectID ::
    (getTeamsForComponent teams component).map (fun t => t.projectID)
  let successCount := (targets.filter (fun t => sendOk t)).length
  let errs := targets.filter (fun t => !(sendOk t))
  (targets, !(!errs.isEmpty && successCount == 0))

/-- The isResolved computation of SendIncidentEvent: resolved or closed,
case-insensitively. -/
def isResolvedStatus (webrcaStatus : String) : Bool :=
  lowerStr webrcaStatus == "resolved" || lowerStr webrcaStatus == "closed"

/-- mapToDevLakeStatus: DONE with the lowercased raw status when resolved,
otherwise TODO with the literal "open". -/
def mapToDevLakeStatus (webrcaStatus : String) (isResolved : Bool) :
    String × String :=
  if isResolved then ("DONE", lowerStr webrcaStatus) else ("TODO", "open")

/-- The (status, originalStatus) pair SendIncidentEvent places in the
issue payload. -/
def incidentStatusFields (webrcaStatus : String) : String × String :=
  mapToDevLakeStatus webrcaStatus (isResolvedStatus webrcaStatus)

end DevLake

/-! ## String lemmas for the normalization claim -/

lemma char_toNat_ofNat_valid (n : Nat) (h : n.isValidChar) :
    (Char.ofNat n).toNat = n := by
  rw [Char.ofNat, dif_pos h]
  rfl

lemma toLowerChar_idem (c : Char) : toLowerChar (toLowerChar c) = toLowerChar c := by
  unfold toLowerChar
  by_cases h : 65 ≤ c.toNat ∧ c.toNat ≤ 90
  · rw [if_pos h]
    have hv : (c.toNat + 32).isValidChar := by
      left
      omega
    have ht : (Char.ofNat (c.toNat + 32)).toNat = c.toNat + 32 :=
      char_toNat_ofNat_valid _ hv
    rw [ht, if_neg (by omega)]
  · rw [if_neg h, if_neg h]

lemma lowerChars_idem (s : List Char) : lowerChars (lowerChars s) = lowerChars s := by
  unfold lowerChars
  rw [List.map_map]
  exact List.map_congr_left (fun a _ => toLowerChar_idem a)

lemma lowered_take (s : List Char) (k : Nat) (h : lowerChars s = s) :
    lowerChars (s.take k) = s.take k := by
  unfold lowerChars at h ⊢
  rw [List.map_take, h]

lemma lowered_drop (s : List Char) (k : Nat) (h : lowerChars s = s) :
    lowerChars (s.drop k) = s.drop k := by
  unfold lowerChars at h ⊢
  rw [List.map_drop, h]

lemma lowered_trimSuffix (s t : List Char) (h : lowerChars s = s) :
    lowerChars (trimSuffixChars s t) = trimSuffixChars s t := by
  unfold trimSuffixChars
  by_cases hs : t.isSuffixOf s
  · rw [if_pos hs]
    exact lowered_take s _ h
  · rw [if_neg hs]
    exact h

lemma lowered_replaceFirst (old rep : List Char) (hrep : lowerChars rep = rep) :
    ∀ s : List Char, lowerChars s = s →
      lowerChars (replaceFirstChars s old rep) = replaceFirstChars s old rep := by
  intro s
  induction s with
  | nil => intro _; rfl
  | cons c rest ih =>
    intro h
    have hparts : toLowerChar c = c ∧ lowerChars rest = rest := by
      unfold lowerChars at h
      rw [List.map_cons] at h
      exact ⟨(List.cons.injEq _ _ _ _).mp h |>.1, (List.cons.injEq _ _ _ _).mp h |>.2⟩
    unfold replaceFirstChars
    by_cases hp : old.isPrefixOf (c :: rest)
    · rw [if_pos hp]
      unfold lowerChars
      rw [List.map_append]
      unfold lowerChars at hrep
      rw [hrep]
      have hd := lowered_drop (c :: rest) old.length h
      unfold lowerChars at hd
      rw [hd]
    · rw [if_neg hp]
      unfold lowerChars
      rw [List.map_cons, hparts.1]
      have := ih hparts.2
      unfold lowerChars at this
      rw [this]

lemma lowered_normalize (s : List Char) :
    lowerChars (CommitHelper.normalizeRepoURLChars s) = CommitHelper.normalizeRepoURLChars s := by
  unfold CommitHelper.normalizeRepoURLChars
  by_cases hs : s = []
  · rw [if_pos hs]; rfl
  · rw [if_neg hs]
    exact lowered_replaceFirst _ _ (by decide) _
      (lowered_trimSuffix _ _ (lowered_trimSuffix _ _ (lowerChars_idem s)))

lemma trimSuffix_of_not_suffix (s t : List Char) (h : t.isSuffixOf s = false) :
    trimSuffixChars s t = s := by
  unfold trimSuffixChars
  rw [if_neg]
  simp [h]

lemma replaceFirst_of_no_substr (pat rep : List Char) :
    ∀ s : List Char, hasSubstrChars s pat = false →
      replaceFirstChars s pat rep = s := by
  intro s
  induction s with
  | nil => intro _; rfl
  | cons c rest ih =>
    intro h
    unfold hasSubstrChars at h
    rw [Bool.or_eq_false_iff] at h
    unfold replaceFirstChars
    rw [if_neg (by simp [h.1]), ih h.2]

/-! ## Claim C7 -/

/-- C7, counterexample. The repository-URL normalization is not
idempotent: a URL ending in ".git/" loses only the slash in the first pass
and the ".git" in the second, so normalize(normalize(u)) differs from
normalize(u) at u = "a.git/". -/
theorem c7_counterexample :
    CommitHelper.normalizeRepoURL (CommitHelper.normalizeRepoURL "a.git/")
      ≠ CommitHelper.normalizeRepoURL "a.git/" := by
  decide

/-- C7, amended: normalize(normalize(u)) = normalize(u) for every URL
whose normalized form does not still end in ".git" or "/" and does not
still contain "http://" (each trim removes a single suffix occurrence and
the scheme rewrite replaces a single occurrence, so residues of those
patterns change again on a second pass). -/
theorem c7_normalize_conditional_idempotence (u : String)
    (h1 : ((".git".data).isSuffixOf (CommitHelper.normalizeRepoURL u).data) = false)
    (h2 : (("/".data).isSuffixOf (CommitHelper.normalizeRepoURL u).data) = false)
    (h3 : hasSubstrChars (CommitHelper.normalizeRepoURL u).data ("http://".data) = false) :
    CommitHelper.normalizeRepoURL (CommitHelper.normalizeRepoURL u)
      = CommitHelper.normalizeRepoURL u := by
  unfold CommitHelper.normalizeRepoURL at h1 h2 h3 ⊢
  set N := CommitHelper.normalizeRepoURLChars u.data with hN
  show String.mk (CommitHelper.normalizeRepoURLChars (String.mk N).data) = String.mk N
  have hdata : (String.mk N).data = N := rfl
  rw [hdata] at *
  congr 1
  unfold CommitHelper.normalizeRepoURLChars
  by_cases hn : N = []
  · rw [if_pos hn, hn]
  · rw [if_neg hn]
    have hlow : lowerChars N = N := by rw [hN]; exact lowered_normalize u.data
    rw [hlow, trimSuffix_of_not_suffix _ _ h1, trimSuffix_of_not_suffix _ _ h2,
      replaceFirst_of_no_substr _ _ _ h3]

/-- Witness for c7_normalize_conditional_idempotence at a URL whose
normalized form is clean. -/
theorem c7_normalize_conditional_idempotence_witness :
    CommitHelper.normalizeRepoURL
        (CommitHelper.normalizeRepoURL "HTTP://GitHub.com/Org/Repo.git")
      = CommitHelper.normalizeRepoURL "HTTP://GitHub.com/Org/Repo.git" :=
  c7_normalize_conditional_idempotence "HTTP://GitHub.com/Org/Repo.git"
    (by decide) (by decide) (by decide)

/-! ## Claim C8 -/

/-- A team whose component list contains the empty string. -/
def teamEmptyComp : DevLake.TeamConfig :=
  { name := "t", projectID := "3", argocdComponents := [""] }

/-- The konflux-ui team of scenario E4. -/
def teamUI : DevLake.TeamConfig :=
  { name := "konflux-ui-team", projectID := "3", argocdComponents := ["konflux-ui"] }

/-- With a non-empty component, GetTeamsForComponent is exactly the filter
by component membership. -/
lemma getTeams_eq_filter (teams : List DevLake.TeamConfig) (component : String)
    (h : component ≠ "") :
    DevLake.getTeamsForComponent teams component =
      teams.filter (fun t => t.argocdComponents.any (fun tc => tc == component)) := by
  unfold DevLake.getTeamsForComponent
  by_cases he : teams.isEmpty
  · have hteams : teams = [] := by
      cases teams with
      | nil => rfl
      | cons a l => simp [List.isEmpty] at he
    subst hteams
    simp
  · have hc : (component == "") = false := by
      simp [h]
    simp [hc, he]

/-- C8, counterexample. When the component extracted from the DisplayTitle
is empty (for example a nil or unparseable title) GetTeamsForComponent
returns nil even for a team whose argocdComponents contains the empty
component, so the payload is posted only to the global project although
the claimed team set is non-empty. -/
theorem c8_counterexample :
    (DevLake.sendDeploymentEvent "1" [teamEmptyComp] "" (fun _ => true)).1 = ["1"] ∧
    ([teamEmptyComp].filter
      (fun t => t.argocdComponents.any (fun tc => tc == ""))).map
        (fun t => t.projectID) = ["3"] := by
  decide

/-- C8, amended: the fan-out posts to the global project always and, when
the extracted component is non-empty, to every configured team whose
argocdComponents contains it (an empty component reaches only the global
project); the operation returns success iff at least one send succeeded,
otherwise the aggregated error. -/
theorem c8_fanout_semantics (globalProjectID : String)
    (teams : List DevLake.TeamConfig) (component : String)
    (sendOk : String → Bool) :
    (component ≠ "" →
      (DevLake.sendDeploymentEvent globalProjectID teams component sendOk).1 =
        globalProjectID :: (teams.filter
          (fun t => t.argocdComponents.any (fun tc => tc == component))).map
            (fun t => t.projectID)) ∧
    (component = "" →
      (DevLake.sendDeploymentEvent globalProjectID teams component sendOk).1 =
        [globalProjectID]) ∧
    ((DevLake.sendDeploymentEvent globalProjectID teams component sendOk).2 = true ↔
      ∃ t ∈ (DevLake.sendDeploymentEvent globalProjectID teams component sendOk).1,
        sendOk t = true) := by
  refine ⟨fun h => ?_, fun h => ?_, ?_⟩
  · simp only [DevLake.sendDeploymentEvent, getTeams_eq_filter teams component h]
  · subst h
    simp [DevLake.sendDeploymentEvent, DevLake.getTeamsForComponent]
  · simp only [DevLake.sendDeploymentEvent]
    set ts := globalProjectID ::
      (DevLake.getTeamsForComponent teams component).map (fun t => t.projectID) with hts
    by_cases hA : ts.any (fun t => sendOk t) = true
    · obtain ⟨x, hx, hsx⟩ := List.any_eq_true.mp hA
      have hmem : x ∈ ts.filter (fun t => sendOk t) := List.mem_filter.mpr ⟨hx, hsx⟩
      have hlen : (ts.filter (fun t => sendOk t)).length ≠ 0 := by
        intro hz
        rw [List.length_eq_zero] at hz
        rw [hz] at hmem
        exact absurd hmem (List.not_mem_nil x)
      have hbeq : ((ts.filter (fun t => sendOk t)).length == 0) = false := by
        simpa using hlen
      simp only [hbeq, Bool.and_false, Bool.not_false]
      exact ⟨fun _ => ⟨x, hx, hsx⟩, fun _ => by trivial⟩
    · have hall : ∀ t ∈ ts, sendOk t = false := by
        intro t ht
        by_contra hcon
        exact hA (List.any_eq_true.mpr ⟨t, ht, by simpa using hcon⟩)
      have hfilter : ts.filter (fun t => sendOk t) = [] := by
        rw [List.filter_eq_nil_iff]
        intro a ha
        simp [hall a ha]
      have herrs : ts.filter (fun t => !(sendOk t)) = ts := by
        rw [List.filter_eq_self]
        intro a ha
        simp [hall a ha]
      have hempty : (ts.filter (fun t => !(sendOk t))).isEmpty = false := by
        rw [herrs, hts]
        rfl
      simp only [hfilter, hempty, List.length_nil, Bool.not_false]
      constructor
      · intro hcontra
        simp at hcontra
      · rintro ⟨t, ht, hsend⟩
        exact absurd hsend (by simp [hall t ht])

/-- Witness for c8_fanout_semantics at the E4 scenario: component
konflux-ui fans out to the global project and team project 3, and the
call succeeds. -/
theorem c8_fanout_semantics_witness :
    (DevLake.sendDeploymentEvent "1" [teamUI] "konflux-ui" (fun _ => true)).1
      = ["1", "3"] ∧
    (DevLake.sendDeploymentEvent "1" [teamUI] "konflux-ui" (fun _ => true)).2 = true := by
  have h := c8_fanout_semantics "1" [teamUI] "konflux-ui" (fun _ => true)
  refine ⟨?_, ?_⟩
  · rw [h.1 (by decide)]
    decide
  · refine h.2.2.mpr ⟨"1", ?_, rfl⟩
    rw [h.1 (by decide)]
    decide

/-! ## Claim C9 -/

/-- C9, counterexample. For an unresolved incident the payload
originalStatus is the literal "open", not the lowercased raw status: a raw
status "Investigating" maps to ("TODO", "open") although its lowercase is
"investigating". -/
theorem c9_counterexample :
    (DevLake.incidentStatusFields "Investigating").1 = "TODO" ∧
    (DevLake.incidentStatusFields "Investigating").2 = "open" ∧
    lowerStr "Investigating" = "investigating" ∧
    ("open" : String) ≠ "investigating" := by
  decide

/-- C9, amended: status is DONE iff the raw status is resolved or closed
(case-insensitively) and TODO otherwise; originalStatus is the lowercased
raw status only when resolved, and the literal "open" otherwise. -/
theorem c9_status_mapping (s : String) :
    ((DevLake.incidentStatusFields s).1 = "DONE" ↔ DevLake.isResolvedStatus s = true) ∧
    (DevLake.incidentStatusFields s).2 =
      (if DevLake.isResolvedStatus s then lowerStr s else "open") := by
  unfold DevLake.incidentStatusFields DevLake.mapToDevLakeStatus
  by_cases h : DevLake.isResolvedStatus s
  · simp [h]
  · simp [h]

/-! ## Claim C10 -/

/-- C10: IsNewDeployment can never answer (true, nil) without a stored
record. GetDeployment converts a missing key into the error "deployment
not found" and never returns (nil, nil), so a first deployment yields
(false, error) and (true, nil) arises exactly when a record exists whose
revision differs from the given one. -/
theorem c10_isNewDeployment_characterization (pfx : String) (st : Storage.DepStore)
    (appName clusterName revision : String) :
    (Storage.lookupDep st (Storage.buildKey pfx [appName, clusterName]) = none →
      Storage.isNewDeployment pfx st appName clusterName revision
        = (false, some "deployment not found")) ∧
    Storage.getDeployment pfx st appName clusterName ≠ (none, none) ∧
    (Storage.isNewDeployment pfx st appName clusterName revision = (true, none) ↔
      ∃ r, Storage.lookupDep st (Storage.buildKey pfx [appName, clusterName]) = some r ∧
        r.revision ≠ revision) := by
  unfold Storage.isNewDeployment Storage.getDeployment
  cases hl : Storage.lookupDep st (Storage.buildKey pfx [appName, clusterName]) with
  | none => simp
  | some r => simp [bne_iff_ne]

/-- Witness for c10_isNewDeployment_characterization on the empty store:
a first deployment comes back as (false, error), not (true, nil). -/
theorem c10_isNewDeployment_witness :
    Storage.isNewDeployment "dora" [] "app" "cluster" "rev"
      = (false, some "deployment not found") :=
  (c10_isNewDeployment_characterization "dora" [] "app" "cluster" "rev").1 rfl

end DoraMetrics
